import Mathlib

/-!
Shallow embedding of `src/atomistic_models/xyz2pdb.py` (an XYZ → PDB
trajectory converter) and proofs about it.

Modelling conventions:
* The input file is a `List String` of its lines (without trailing
  newlines).  Python's `readline` returning `""` at end of file
  corresponds to the list being empty; an empty line inside the file is
  the element `""` (truthy `"\n"` in Python, so never confused with EOF).
* Coordinates are exact rationals (`ℚ`).  CPython stores them as IEEE 754
  doubles; for every input appearing in this development the nearest
  double and the exact decimal value round identically at 3 (resp. 2)
  decimal places, so the rational model is faithful there.  `%.3f`
  formatting rounds half-to-even, as CPython does on the exact value.
* Python `int(...)` is modelled as: strip whitespace, optional sign,
  nonempty digit string.  Python `float(...)` as: optional sign, decimal
  mantissa with optional fraction, optional exponent.  (CPython
  additionally accepts underscore digit separators, unicode digits and
  `inf`/`nan`; no claim involves those.)
* The `while True` reader loop is written with a fuel parameter; one
  unit of fuel is spent per loop iteration and every iteration consumes
  at least one input line, so `lines.length + 1` fuel always suffices
  (`convertAux_fuel` below makes this precise).
* Diagnostics printed to stderr/stdout are not modelled; only the bytes
  written to the output file are.
-/

/-- Python `str.strip()` on the characters of a string (ASCII whitespace). -/
def pyStrip (s : String) : String :=
  String.mk (((s.data.dropWhile Char.isWhitespace).reverse.dropWhile Char.isWhitespace).reverse)

/-- Accumulator-style worker for whitespace splitting. -/
def splitWsAux (cur : List Char) : List Char → List (List Char)
  | [] => if cur = [] then [] else [cur.reverse]
  | c :: cs =>
    if c.isWhitespace then
      if cur = [] then splitWsAux [] cs else cur.reverse :: splitWsAux [] cs
    else splitWsAux (c :: cur) cs

/-- Python `str.split()` with no argument: split on whitespace runs,
dropping empty fields. -/
def pySplit (s : String) : List String :=
  (splitWsAux [] s.data).map String.mk

/-- Python `str.upper()` (ASCII letters; inputs here are ASCII). -/
def pyUpper (s : String) : String :=
  String.mk (s.data.map Char.toUpper)

/-- Python slicing `s[:n]`. -/
def pyTake (s : String) (n : Nat) : String :=
  String.mk (s.data.take n)

/-- Value of a digit string (most significant first). -/
def digitsVal (ds : List Char) : Nat :=
  ds.foldl (fun a c => 10 * a + (c.toNat - 48)) 0

/-- Value of a nonempty all-digit string, `none` otherwise. -/
def digitsVal? (ds : List Char) : Option Nat :=
  match ds with
  | [] => none
  | _ => if ds.all Char.isDigit then some (digitsVal ds) else none

/-- Python `int(s)`: strip, optional sign, nonempty digit run. -/
def parsePyInt? (s : String) : Option ℤ :=
  match (pyStrip s).data with
  | '+' :: ds => (digitsVal? ds).map (fun n => (n : ℤ))
  | '-' :: ds => (digitsVal? ds).map (fun n => -(n : ℤ))
  | ds => (digitsVal? ds).map (fun n => (n : ℤ))

/-- Optional exponent part of a float literal: empty, or `e`/`E` then an
optionally signed nonempty digit run. -/
def parseExp? (cs : List Char) : Option ℤ :=
  match cs with
  | [] => some 0
  | 'e' :: '+' :: ds => (digitsVal? ds).map (fun n => (n : ℤ))
  | 'e' :: '-' :: ds => (digitsVal? ds).map (fun n => -(n : ℤ))
  | 'e' :: ds => (digitsVal? ds).map (fun n => (n : ℤ))
  | 'E' :: '+' :: ds => (digitsVal? ds).map (fun n => (n : ℤ))
  | 'E' :: '-' :: ds => (digitsVal? ds).map (fun n => -(n : ℤ))
  | 'E' :: ds => (digitsVal? ds).map (fun n => (n : ℤ))
  | _ => none

/-- The rational `m × 10 ^ e`. -/
def decValue (m : ℤ) (e : ℤ) : ℚ :=
  if 0 ≤ e then mkRat (m * (10 : ℤ) ^ e.toNat) 1 else mkRat m (10 ^ (-e).toNat)

/-- Unsigned Python float literal: `digits [. digits] [exp]` or
`. digits [exp]` (at least one mantissa digit required). -/
def parseUFloat? (cs : List Char) : Option ℚ :=
  let ip := cs.takeWhile Char.isDigit
  let r1 := cs.dropWhile Char.isDigit
  match r1 with
  | '.' :: r2 =>
    let fp := r2.takeWhile Char.isDigit
    let r3 := r2.dropWhile Char.isDigit
    if ip = [] ∧ fp = [] then none
    else
      (parseExp? r3).map (fun e =>
        decValue ((digitsVal ip : ℤ) * (10 : ℤ) ^ fp.length + (digitsVal fp : ℤ))
          (e - (fp.length : ℤ)))
  | _ =>
    if ip = [] then none
    else (parseExp? r1).map (fun e => decValue (digitsVal ip) e)

/-- Python `float(s)`: strip, optional sign, unsigned float literal. -/
def parsePyFloat? (s : String) : Option ℚ :=
  match (pyStrip s).data with
  | '+' :: cs => parseUFloat? cs
  | '-' :: cs => (parseUFloat? cs).map Neg.neg
  | cs => parseUFloat? cs

/-- Left-pad with spaces to width `w` (Python `format(s, ">w")`; strings
wider than `w` pass through unchanged — no truncation). -/
def padLeft (w : Nat) (s : String) : String :=
  String.mk (List.replicate (w - s.length) ' ') ++ s

/-- Right-pad with spaces to width `w` (Python `format(s, "<w")`). -/
def padRight (w : Nat) (s : String) : String :=
  s ++ String.mk (List.replicate (w - s.length) ' ')

/-- Decimal digits of `n` left-padded with zeros to width `w`. -/
def padZeros (w : Nat) (n : Nat) : String :=
  String.mk (List.replicate (w - (toString n).length) '0') ++ toString n

/-- Magnitude of `q × 10 ^ prec` rounded half-to-even (the rounding CPython
applies when formatting with `%.{prec}f`), computed on `q.num`/`q.den`. -/
def roundedScaled (q : ℚ) (prec : Nat) : Nat :=
  let n := q.num.natAbs * 10 ^ prec
  let d := q.den
  let f := n / d
  let r := n % d
  if 2 * r < d then f
  else if d < 2 * r then f + 1
  else if f % 2 = 0 then f else f + 1

/-- Python `format(q, ">{width}.{prec}f")`: fixed-point with `prec`
decimals, right-justified in `width` (wider if it does not fit). -/
def fmtFixed (prec width : Nat) (q : ℚ) : String :=
  let scale := 10 ^ prec
  let mag := roundedScaled q prec
  let signStr := if q.num < 0 then "-" else ""
  padLeft width (signStr ++ toString (mag / scale) ++ "." ++ padZeros prec (mag % scale))

/-- Embedding of `format_pdb_line` from `xyz2pdb.py`: one fixed-width ATOM
record, mirroring the source f-string piece by piece. -/
def format_pdb_line (atom_serial : Nat) (atom_name res_name chain_id : String)
    (res_seq : Nat) (x y z occupancy temp_factor : ℚ) (element_sym : String) : String :=
  let atom_name_pdb := " " ++ padRight 3 atom_name
  "ATOM  " ++ padLeft 5 (toString atom_serial)
    ++ " " ++ padRight 4 atom_name_pdb
    ++ padRight 3 res_name ++ " "
    ++ chain_id
    ++ padLeft 4 (toString res_seq) ++ "    "
    ++ fmtFixed 3 8 x
    ++ fmtFixed 3 8 y
    ++ fmtFixed 3 8 z
    ++ fmtFixed 2 6 occupancy
    ++ fmtFixed 2 6 temp_factor ++ "      "
    ++ "    " ++ padLeft 2 element_sym ++ "  "
    ++ "\n"

/-- One line written to the output PDB file, kept structured; `render`
below turns it into the exact bytes the Python program writes. -/
inductive PdbRec where
  | model (modelNo : Nat)
  | atomRec (serial : Nat) (atom_name res_name chain_id : String) (res_seq : Nat)
      (x y z occupancy temp_factor : ℚ) (element_sym : String)
  | endmdl
  | endRec
deriving DecidableEq

/-- The exact text of one output record. -/
def render : PdbRec → String
  | PdbRec.model n => "MODEL     " ++ padLeft 4 (toString n) ++ "\n"
  | PdbRec.atomRec serial name rn ci rs x y z occ tf el =>
      format_pdb_line serial name rn ci rs x y z occ tf el
  | PdbRec.endmdl => "ENDMDL\n"
  | PdbRec.endRec => "END\n"

/-- The ATOM record the converter builds from one successfully parsed atom
line (serial already incremented): first token is the atom name as-is, the
element column gets it uppercased and truncated to 2 characters, the
coordinates are tokens 2–4, and the remaining fields are constants. -/
def atomRecOf (serial : Nat) (line : String) : PdbRec :=
  let parts := pySplit line
  PdbRec.atomRec serial (parts.headD "") "MOL" "A" 1
    ((parsePyFloat? (parts.getD 1 "")).getD 0)
    ((parsePyFloat? (parts.getD 2 "")).getD 0)
    ((parsePyFloat? (parts.getD 3 "")).getD 0)
    1 0 (pyTake (pyUpper (parts.headD "")) 2)

/-- The atom-line loop (`for i in range(num_atoms)`): reads one line per
iteration; end of input breaks out; a line with fewer than 4 fields or an
unparseable coordinate is skipped (`continue`); otherwise the serial is
bumped and an ATOM record emitted.  Returns the records and the unread
remainder of the input. -/
def readAtoms : Nat → Nat → List String → List PdbRec × List String
  | _, 0, ls => ([], ls)
  | _, _ + 1, [] => ([], [])
  | serial, k + 1, line :: rest =>
    let parts := pySplit line
    if parts.length < 4 then readAtoms serial k rest
    else if (parsePyFloat? (parts.getD 1 "")).isSome
         ∧ (parsePyFloat? (parts.getD 2 "")).isSome
         ∧ (parsePyFloat? (parts.getD 3 "")).isSome then
      let p := readAtoms (serial + 1) k rest
      (atomRecOf (serial + 1) line :: p.1, p.2)
    else readAtoms serial k rest

/-- The recovery scan entered when a frame header fails integer parsing:
read lines until one parses as an integer (end of input → `none`); on
success one further line — the assumed comment — is consumed inside the
scan itself, before control returns to the main loop. -/
def recover : List String → Option (ℤ × List String)
  | [] => none
  | next_line :: rest =>
    match parsePyInt? (pyStrip next_line) with
    | some num_atoms => some (num_atoms, rest.tail)
    | none => recover rest

/-- Header resolution: direct `int(line.strip())` parse, else the recovery
scan over the following lines. -/
def resolveHeader (header : String) (rest : List String) : Option (ℤ × List String) :=
  match parsePyInt? (pyStrip header) with
  | some num_atoms => some (num_atoms, rest)
  | none => recover rest

/-- The `while True` frame loop of `xyz_to_pdb`, with fuel (one unit per
iteration; every iteration consumes at least one line, so fuel exceeding
the number of lines never runs out — see `convertAux_fuel`).  Returns the
records written inside the loop and the final model count. -/
def convertAux : Nat → Nat → List String → List PdbRec × Nat
  | 0, model_count, _ => ([], model_count)
  | _ + 1, model_count, [] => ([], model_count)
  | fuel + 1, model_count, header :: rest =>
    match resolveHeader header rest with
    | none => ([], model_count)
    | some (num_atoms, rest1) =>
      if num_atoms ≤ 0 then
        convertAux fuel model_count rest1.tail
      else
        match rest1 with
        | [] => ([], model_count)
        | _comment :: rest2 =>
          let p := readAtoms 0 num_atoms.toNat rest2
          let q := convertAux fuel (model_count + 1) p.2
          (PdbRec.model (model_count + 1) :: (p.1 ++ PdbRec.endmdl :: q.1), q.2)

/-- Embedding of `xyz_to_pdb`: the full record sequence written to the
output file, including the trailing END when at least one frame opened. -/
def xyz_to_pdb (lines : List String) : List PdbRec :=
  let r := convertAux (lines.length + 1) 0 lines
  r.1 ++ (if 0 < r.2 then [PdbRec.endRec] else [])

/-- The output file as text. -/
def xyz_to_pdb_text (lines : List String) : String :=
  String.join ((xyz_to_pdb lines).map render)

/-- The converter's skip condition for one atom line: fewer than 4
whitespace fields, or one of fields 2–4 fails float parsing. -/
def atomLineSkipped (line : String) : Bool :=
  let parts := pySplit line
  decide (parts.length < 4)
    || (parsePyFloat? (parts.getD 1 "")).isNone
    || (parsePyFloat? (parts.getD 2 "")).isNone
    || (parsePyFloat? (parts.getD 3 "")).isNone

/-- Modelled from the spec: the spec's skip condition for an atom line —
"fewer than 4 tokens, or the LAST three tokens not all parseable as
floating-point numbers".  Kept separate from `atomLineSkipped` (the
condition the code actually uses) to compare the two. -/
def specLastThreeSkipped (line : String) : Bool :=
  let parts := pySplit line
  decide (parts.length < 4)
    || (match parts.reverse with
        | t1 :: t2 :: t3 :: _ =>
          (parsePyFloat? t1).isNone || (parsePyFloat? t2).isNone || (parsePyFloat? t3).isNone
        | _ => true)

/-- One frame of a well-formed XYZ input. -/
structure XYZFrame where
  header : String
  comment : String
  atoms : List String
deriving DecidableEq

/-- The lines a frame contributes to the input file. -/
def XYZFrame.lines (f : XYZFrame) : List String :=
  f.header :: f.comment :: f.atoms

/-- Concatenation of the frames' lines. -/
def flattenFrames : List XYZFrame → List String
  | [] => []
  | f :: fs => f.lines ++ flattenFrames fs

/-- Well-formedness of a frame: the header parses as the (positive) number
of atom lines, and every atom line passes the converter's checks. -/
def WFFrame (f : XYZFrame) : Prop :=
  parsePyInt? (pyStrip f.header) = some (f.atoms.length : ℤ)
    ∧ 0 < f.atoms.length
    ∧ ∀ a ∈ f.atoms, atomLineSkipped a = false

instance (f : XYZFrame) : Decidable (WFFrame f) := by
  unfold WFFrame; infer_instance

/-- The ATOM records of consecutive well-formed atom lines, serials
starting at `serial + 1`. -/
def mapRecs (serial : Nat) : List String → List PdbRec
  | [] => []
  | a :: rest => atomRecOf (serial + 1) a :: mapRecs (serial + 1) rest

/-- The records one well-formed frame contributes to the output. -/
def frameBlock (modelNo : Nat) (f : XYZFrame) : List PdbRec :=
  PdbRec.model modelNo :: mapRecs 0 f.atoms ++ [PdbRec.endmdl]

/-- The expected output for a list of well-formed frames, model numbers
counting on from `mc`. -/
def expectedBlocks (mc : Nat) : List XYZFrame → List PdbRec
  | [] => []
  | f :: fs => frameBlock (mc + 1) f ++ expectedBlocks (mc + 1) fs

/-- Serial-number discipline of an output record list: the counter starts
afresh at 0 on each MODEL header, each ATOM record must carry counter + 1
and bumps the counter, other records leave it unchanged. -/
def serialsOk (c : Nat) : List PdbRec → Bool
  | [] => true
  | PdbRec.model _ :: rest => serialsOk 0 rest
  | PdbRec.atomRec s _ _ _ _ _ _ _ _ _ _ :: rest =>
      if s = c + 1 then serialsOk (c + 1) rest else false
  | PdbRec.endmdl :: rest => serialsOk c rest
  | PdbRec.endRec :: rest => serialsOk c rest

/-- The element-symbol field of an ATOM record. -/
def elementOf : PdbRec → Option String
  | PdbRec.atomRec _ _ _ _ _ _ _ _ _ _ el => some el
  | _ => none

-- Sanity checks of the embedding on concrete data.
example : pySplit "C  1.0 2.0  3.0 extra" = ["C", "1.0", "2.0", "3.0", "extra"] := by decide
example : parsePyInt? " 12 " = some 12 := by decide
example : parsePyInt? "junk" = none := by decide
example : parsePyFloat? "1.5" = some (mkRat 3 2) := by decide
example : parsePyFloat? "-2.5e1" = some (mkRat (-25) 1) := by decide
example : parsePyFloat? "x" = none := by decide
example : fmtFixed 3 8 (mkRat 1 1) = "   1.000" := by decide
example : fmtFixed 2 6 (mkRat 1 1) = "  1.00" := by decide
example :
    format_pdb_line 1 "C" "MOL" "A" 1 (mkRat 1 1) (mkRat 2 1) (mkRat 3 1) 1 0 "C"
      = "ATOM      1  C  MOL A   1       1.000   2.000   3.000  1.00  0.00           C  \n" := by
  decide
example :
    xyz_to_pdb ["1", "c", "C 1.0 2.0 3.0"]
      = [PdbRec.model 1,
         PdbRec.atomRec 1 "C" "MOL" "A" 1 (mkRat 1 1) (mkRat 2 1) (mkRat 3 1) 1 0 "C",
         PdbRec.endmdl, PdbRec.endRec] := by decide

/-! Helper lemmas about the reader loop. -/

/-- Characterization of one iteration of the atom loop: the line is either
skipped (consuming the iteration but producing nothing) or turned into one
ATOM record with the next serial. -/
theorem readAtoms_cons (serial k : Nat) (line : String) (rest : List String) :
    readAtoms serial (k + 1) (line :: rest) =
      if atomLineSkipped line then readAtoms serial k rest
      else (atomRecOf (serial + 1) line :: (readAtoms (serial + 1) k rest).1,
            (readAtoms (serial + 1) k rest).2) := by
  by_cases h1 : (pySplit line).length < 4
  · simp [readAtoms, atomLineSkipped, h1]
  · cases hx : parsePyFloat? ((pySplit line).getD 1 "") <;>
      cases hy : parsePyFloat? ((pySplit line).getD 2 "") <;>
        cases hz : parsePyFloat? ((pySplit line).getD 3 "") <;>
          (simp only [List.getD_eq_getElem?_getD] at hx hy hz
           simp [readAtoms, atomLineSkipped, h1, hx, hy, hz])

theorem readAtoms_snd_length : ∀ (k serial : Nat) (ls : List String),
    (readAtoms serial k ls).2.length ≤ ls.length := by
  intro k
  induction k with
  | zero => intro serial ls; simp [readAtoms]
  | succ k ih =>
    intro serial ls
    cases ls with
    | nil => simp [readAtoms]
    | cons line rest =>
      rw [readAtoms_cons]
      by_cases h : atomLineSkipped line
      · simpa [h] using (ih serial rest).trans (Nat.le_succ _)
      · simpa [h] using (ih (serial + 1) rest).trans (Nat.le_succ _)

theorem readAtoms_all_consumed : ∀ (k serial : Nat) (ls : List String),
    ls.length ≤ k → (readAtoms serial k ls).2 = [] := by
  intro k
  induction k with
  | zero =>
    intro serial ls h
    have : ls = [] := List.length_eq_zero.mp (Nat.le_zero.mp h)
    simp [this, readAtoms]
  | succ k ih =>
    intro serial ls h
    cases ls with
    | nil => simp [readAtoms]
    | cons line rest =>
      rw [readAtoms_cons]
      by_cases hs : atomLineSkipped line
      · simpa [hs] using ih serial rest (by simpa using Nat.le_of_succ_le_succ h)
      · simpa [hs] using ih (serial + 1) rest (by simpa using Nat.le_of_succ_le_succ h)

theorem readAtoms_exact : ∀ (atoms : List String) (serial : Nat) (rest : List String),
    (∀ a ∈ atoms, atomLineSkipped a = false) →
    readAtoms serial atoms.length (atoms ++ rest) = (mapRecs serial atoms, rest) := by
  intro atoms
  induction atoms with
  | nil => intro serial rest _; simp [readAtoms, mapRecs]
  | cons a rest0 ih =>
    intro serial rest h
    have ha : atomLineSkipped a = false := h a (by simp)
    have hrest : ∀ x ∈ rest0, atomLineSkipped x = false := fun x hx => h x (by simp [hx])
    simp only [List.length_cons, List.cons_append]
    rw [readAtoms_cons, if_neg (by simp [ha]), ih (serial + 1) rest hrest]
    simp [mapRecs]

theorem recover_length : ∀ (ls : List String) (n : ℤ) (r : List String),
    recover ls = some (n, r) → r.length < ls.length := by
  intro ls
  induction ls with
  | nil => intro n r h; simp [recover] at h
  | cons next_line rest ih =>
    intro n r h
    rw [recover] at h
    cases hp : parsePyInt? (pyStrip next_line) with
    | some m =>
      rw [hp] at h
      simp only [Option.some.injEq, Prod.mk.injEq] at h
      have : r = rest.tail := h.2.symm
      subst this
      simp only [List.length_cons, List.length_tail]
      omega
    | none =>
      rw [hp] at h
      exact Nat.lt_trans (ih n r h) (Nat.lt_succ_self _)

theorem resolveHeader_length (header : String) (rest : List String) (n : ℤ) (r : List String)
    (h : resolveHeader header rest = some (n, r)) : r.length ≤ rest.length := by
  rw [resolveHeader] at h
  cases hp : parsePyInt? (pyStrip header) with
  | some m =>
    rw [hp] at h
    simp only [Option.some.injEq, Prod.mk.injEq] at h
    simp [h.2]
  | none =>
    rw [hp] at h
    exact Nat.le_of_lt (recover_length rest n r h)

/-- Fuel irrelevance: any fuel exceeding the number of input lines gives
the same result, since every loop iteration consumes at least one line. -/
theorem convertAux_fuel : ∀ (fuel fuel' mc : Nat) (lines : List String),
    lines.length < fuel → lines.length < fuel' →
    convertAux fuel mc lines = convertAux fuel' mc lines := by
  intro fuel
  induction fuel with
  | zero => intro fuel' mc lines h _; exact absurd h (Nat.not_lt_zero _)
  | succ f ih =>
    intro fuel' mc lines h h'
    cases fuel' with
    | zero => exact absurd h' (Nat.not_lt_zero _)
    | succ f' =>
      cases lines with
      | nil => simp [convertAux]
      | cons header rest =>
        have hr : rest.length < f := by simpa using Nat.lt_of_succ_lt_succ h
        have hr' : rest.length < f' := by simpa using Nat.lt_of_succ_lt_succ h'
        simp only [convertAux]
        cases hres : resolveHeader header rest with
        | none => simp
        | some pr =>
          obtain ⟨n, rest1⟩ := pr
          have hlen1 : rest1.length ≤ rest.length := resolveHeader_length header rest n rest1 hres
          simp only
          by_cases hn : n ≤ 0
          · simp only [if_pos hn]
            exact ih f' mc rest1.tail
              (by simp only [List.length_tail]; omega)
              (by simp only [List.length_tail]; omega)
          · simp only [if_neg hn]
            cases rest1 with
            | nil => rfl
            | cons c rest2 =>
              have h2 : (readAtoms 0 n.toNat rest2).2.length ≤ rest2.length :=
                readAtoms_snd_length n.toNat 0 rest2
              have h3 : rest2.length < rest.length := by
                simp only [List.length_cons] at hlen1; omega
              dsimp only
              rw [ih f' (mc + 1) (readAtoms 0 n.toNat rest2).2 (by omega) (by omega)]

/-- Processing one well-formed frame: its header parses directly, the
comment is consumed, exactly its atom lines are read, and one MODEL block
is emitted before the loop continues on the remaining input. -/
theorem convertAux_wfFrame (f : XYZFrame) (hwf : WFFrame f) (fuel mc : Nat)
    (rest : List String) :
    convertAux (fuel + 1) mc (f.lines ++ rest) =
      (frameBlock (mc + 1) f ++ (convertAux fuel (mc + 1) rest).1,
       (convertAux fuel (mc + 1) rest).2) := by
  obtain ⟨hh, hpos, hatoms⟩ := hwf
  have hn : ¬ ((f.atoms.length : ℤ) ≤ 0) := by
    have : (0 : ℤ) < (f.atoms.length : ℤ) := by exact_mod_cast hpos
    omega
  have ht : ((f.atoms.length : ℤ)).toNat = f.atoms.length := Int.toNat_natCast _
  simp only [XYZFrame.lines, List.cons_append]
  simp only [convertAux, resolveHeader, hh]
  rw [if_neg hn]
  rw [ht, readAtoms_exact f.atoms 0 rest hatoms]
  simp [frameBlock]

/-- The loop on a concatenation of well-formed frames produces exactly the
expected MODEL blocks and counts one model per frame. -/
theorem convertAux_frames : ∀ (frames : List XYZFrame) (mc fuel : Nat),
    (∀ f ∈ frames, WFFrame f) → (flattenFrames frames).length < fuel →
    convertAux fuel mc (flattenFrames frames) = (expectedBlocks mc frames, mc + frames.length) := by
  intro frames
  induction frames with
  | nil =>
    intro mc fuel _ hlen
    cases fuel with
    | zero => exact absurd hlen (Nat.not_lt_zero _)
    | succ fl => simp [convertAux, flattenFrames, expectedBlocks]
  | cons f fs ih =>
    intro mc fuel hwf hlen
    cases fuel with
    | zero => exact absurd hlen (Nat.not_lt_zero _)
    | succ fl =>
      have hf : WFFrame f := hwf f (by simp)
      have hfs : ∀ g ∈ fs, WFFrame g := fun g hg => hwf g (by simp [hg])
      have hsplit : flattenFrames (f :: fs) = f.lines ++ flattenFrames fs := rfl
      rw [hsplit] at hlen ⊢
      rw [convertAux_wfFrame f hf fl mc (flattenFrames fs)]
      have hlen2 : (flattenFrames fs).length < fl := by
        simp only [List.length_append, XYZFrame.lines, List.length_cons] at hlen
        omega
      rw [ih (mc + 1) fl hfs hlen2]
      simp only [expectedBlocks, List.length_cons, Prod.mk.injEq]
      exact ⟨trivial, by omega⟩

/-- The records produced by the atom loop, appended before any
continuation, advance the serial discipline counter by exactly the number
of records produced. -/
theorem serialsOk_readAtoms : ∀ (k serial : Nat) (ls : List String) (l : List PdbRec),
    serialsOk serial ((readAtoms serial k ls).1 ++ l)
      = serialsOk (serial + (readAtoms serial k ls).1.length) l := by
  intro k
  induction k with
  | zero => intro serial ls l; simp [readAtoms]
  | succ k ih =>
    intro serial ls l
    cases ls with
    | nil => simp [readAtoms]
    | cons line rest =>
      rw [readAtoms_cons]
      by_cases h : atomLineSkipped line
      · simp only [if_pos h]; exact ih serial rest l
      · simp only [if_neg h, atomRecOf, List.cons_append, List.length_cons]
        rw [serialsOk, if_pos rfl, ih (serial + 1) rest l]
        have harith : serial + 1 + (readAtoms (serial + 1) k rest).1.length
            = serial + ((readAtoms (serial + 1) k rest).1.length + 1) := by omega
        rw [harith]

/-- Serial discipline of the loop output: whatever the counter was before,
the records written by the loop followed by any continuation that is
unconditionally well-serialed stay well-serialed. -/
theorem serialsOk_convertAux : ∀ (fuel mc : Nat) (lines : List String) (c : Nat)
    (l : List PdbRec), (∀ c0, serialsOk c0 l = true) →
    serialsOk c ((convertAux fuel mc lines).1 ++ l) = true := by
  intro fuel
  induction fuel with
  | zero => intro mc lines c l hl; simpa [convertAux] using hl c
  | succ f ih =>
    intro mc lines c l hl
    cases lines with
    | nil => simpa [convertAux] using hl c
    | cons header rest =>
      simp only [convertAux]
      cases hres : resolveHeader header rest with
      | none => simpa using hl c
      | some pr =>
        obtain ⟨n, rest1⟩ := pr
        dsimp only
        by_cases hn : n ≤ 0
        · simp only [if_pos hn]
          exact ih mc rest1.tail c l hl
        · simp only [if_neg hn]
          cases rest1 with
          | nil => simpa using hl c
          | cons cmt rest2 =>
            dsimp only
            rw [List.cons_append]
            rw [serialsOk]
            rw [List.append_assoc]
            rw [serialsOk_readAtoms]
            rw [show (PdbRec.endmdl :: (convertAux f (mc + 1) (readAtoms 0 n.toNat rest2).2).1) ++ l
              = PdbRec.endmdl :: ((convertAux f (mc + 1) (readAtoms 0 n.toNat rest2).2).1 ++ l)
              from rfl]
            rw [serialsOk]
            exact ih (mc + 1) (readAtoms 0 n.toNat rest2).2 _ l hl

/-- Every ATOM record the atom loop produces carries an element symbol of
at most 2 characters (it is built with `pyTake _ 2`). -/
theorem elementOf_readAtoms : ∀ (k serial : Nat) (ls : List String) (r : PdbRec),
    r ∈ (readAtoms serial k ls).1 → ∀ e, elementOf r = some e → e.length ≤ 2 := by
  intro k
  induction k with
  | zero => intro serial ls r hr; simp [readAtoms] at hr
  | succ k ih =>
    intro serial ls r hr e he
    cases ls with
    | nil => simp [readAtoms] at hr
    | cons line rest =>
      rw [readAtoms_cons] at hr
      by_cases h : atomLineSkipped line
      · rw [if_pos h] at hr
        exact ih serial rest r hr e he
      · rw [if_neg h] at hr
        simp only [List.mem_cons] at hr
        cases hr with
        | inl hrec =>
          subst hrec
          simp only [atomRecOf, elementOf, Option.some.injEq] at he
          subst he
          simp only [pyTake, pyUpper, String.length, List.length_take]
          omega
        | inr hmem => exact ih (serial + 1) rest r hmem e he

/-- Every ATOM record the frame loop produces carries an element symbol of
at most 2 characters. -/
theorem elementOf_convertAux : ∀ (fuel mc : Nat) (lines : List String) (r : PdbRec),
    r ∈ (convertAux fuel mc lines).1 → ∀ e, elementOf r = some e → e.length ≤ 2 := by
  intro fuel
  induction fuel with
  | zero => intro mc lines r hr; simp [convertAux] at hr
  | succ f ih =>
    intro mc lines r hr e he
    cases lines with
    | nil => simp [convertAux] at hr
    | cons header rest =>
      cases hres : resolveHeader header rest with
      | none => simp [convertAux, hres] at hr
      | some pr =>
        obtain ⟨n, rest1⟩ := pr
        by_cases hn : n ≤ 0
        · simp only [convertAux, hres, if_pos hn] at hr
          exact ih mc rest1.tail r hr e he
        · cases rest1 with
          | nil => simp [convertAux, hres, if_neg hn] at hr
          | cons cmt rest2 =>
            simp only [convertAux, hres, if_neg hn, List.mem_cons, List.mem_append] at hr
            rcases hr with h1 | h2 | h3
            · subst h1; simp [elementOf] at he
            · exact elementOf_readAtoms n.toNat 0 rest2 r h2 e he
            · rcases h3 with h4 | h5
              · subst h4; simp [elementOf] at he
              · exact ih (mc + 1) (readAtoms 0 n.toNat rest2).2 r h5 e he

/-! Claim theorems. -/

/-- C5: within every MODEL block of the output of `xyz_to_pdb`, the atom
serial numbers are exactly 1, 2, 3, … in order — the serial starts at 1,
advances by 1 per written ATOM record only, and resets on each MODEL
header.  `serialsOk` checks exactly this discipline, starting from a fresh
counter. -/
theorem C5_serials (lines : List String) : serialsOk 0 (xyz_to_pdb lines) = true := by
  simp only [xyz_to_pdb]
  apply serialsOk_convertAux
  intro c0
  by_cases h : 0 < (convertAux (lines.length + 1) 0 lines).2 <;> simp [h, serialsOk]

/-- C2 (code bug): the claimed column layout — x in 1-indexed columns
31–38 and the element symbol in columns 77–78 — FAILS on the line the code
produces; the fields actually land one column earlier (x in 30–37, element
in 76–77), because the f-string omits the altLoc column before the residue
name.  Evaluated at serial 1, atom C at (1,2,3). -/
theorem C2_column_layout :
    (((format_pdb_line 1 "C" "MOL" "A" 1 (mkRat 1 1) (mkRat 2 1) (mkRat 3 1) 1 0 "C").data.drop
        30).take 8 ≠ "   1.000".data)
    ∧ (((format_pdb_line 1 "C" "MOL" "A" 1 (mkRat 1 1) (mkRat 2 1) (mkRat 3 1) 1 0 "C").data.drop
        29).take 8 = "   1.000".data)
    ∧ (((format_pdb_line 1 "C" "MOL" "A" 1 (mkRat 1 1) (mkRat 2 1) (mkRat 3 1) 1 0 "C").data.drop
        76).take 2 ≠ " C".data)
    ∧ (((format_pdb_line 1 "C" "MOL" "A" 1 (mkRat 1 1) (mkRat 2 1) (mkRat 3 1) 1 0 "C").data.drop
        75).take 2 = " C".data) := by
  decide

/-- C3 (code bug): after the recovery scan finds the integer `2` on the
second line, the code consumes "comment line" inside the scan AND then the
next line "C 1.0 2.0 3.0" as the frame comment again, so the first line
read as an atom line is the THIRD line after the recovered count — the
claim says the second.  The output therefore contains only the `O` atom. -/
theorem C3_recovery_consumes_two :
    xyz_to_pdb ["junk", "2", "comment line", "C 1.0 2.0 3.0", "O 1.5 2.5 3.5"]
      = [PdbRec.model 1,
         PdbRec.atomRec 1 "O" "MOL" "A" 1 (mkRat 3 2) (mkRat 5 2) (mkRat 7 2) 1 0 "O",
         PdbRec.endmdl, PdbRec.endRec] := by
  decide

/-- C4 counterexample: the claim's skip condition looks at the LAST three
tokens.  On the 5-token line `C 1.0 2.0 3.0 x` the last three tokens
(`2.0`, `3.0`, `x`) are not all parseable, so the claim predicts the line
is skipped — but the code parses tokens 2–4 and writes one ATOM record. -/
theorem C4_counterexample :
    specLastThreeSkipped "C 1.0 2.0 3.0 x" = true
      ∧ (readAtoms 0 1 ["C 1.0 2.0 3.0 x"]).1
          = [PdbRec.atomRec 1 "C" "MOL" "A" 1 (mkRat 1 1) (mkRat 2 1) (mkRat 3 1) 1 0 "C"] := by
  decide

/-- C4 (amended): while reading a frame's declared atom lines, a line is
skipped if and only if it has fewer than 4 whitespace tokens or its 2nd–4th
tokens are not all parseable as floats (`atomLineSkipped`); either way the
line consumes exactly one of the remaining declared reads, so a skipped
line leaves the frame with fewer ATOM records than declared. -/
theorem C4_amended_skip_condition (serial k : Nat) (line : String) (rest : List String) :
    readAtoms serial (k + 1) (line :: rest)
      = if atomLineSkipped line then readAtoms serial k rest
        else (atomRecOf (serial + 1) line :: (readAtoms (serial + 1) k rest).1,
              (readAtoms (serial + 1) k rest).2) :=
  readAtoms_cons serial k line rest

/-- C8: formatting the coordinate 1.23456 with the converter's `%8.3f`
layout yields exactly `   1.235` (rounded to 3 decimals, right-justified
to 8 characters), and that string is the x field of the ATOM line that
`format_pdb_line` produces (it occupies offsets 29–36 of the line). -/
theorem C8_rounding :
    fmtFixed 3 8 (mkRat 123456 100000) = "   1.235"
      ∧ (((format_pdb_line 1 "C" "MOL" "A" 1 (mkRat 123456 100000) 0 0 1 0 "C").data.drop
          29).take 8 = "   1.235".data) := by
  decide

/-- C9 counterexample: `format_pdb_line` itself does NOT truncate the
element symbol — called with the 3-character symbol `ABC` it emits all
three characters (Python `:>2s` only pads, never truncates), so the
resulting line differs from the one for the truncated symbol `AB`. -/
theorem C9_counterexample :
    (((format_pdb_line 1 "C" "MOL" "A" 1 (mkRat 1 1) (mkRat 2 1) (mkRat 3 1) 1 0 "ABC").data.drop
        75).take 3 = "ABC".data)
    ∧ format_pdb_line 1 "C" "MOL" "A" 1 (mkRat 1 1) (mkRat 2 1) (mkRat 3 1) 1 0 "ABC"
        ≠ format_pdb_line 1 "C" "MOL" "A" 1 (mkRat 1 1) (mkRat 2 1) (mkRat 3 1) 1 0
            (pyTake "ABC" 2) := by
  decide

/-- C9 (amended): the truncation to 2 characters happens in the converter
(`element.upper()[:2]` at the call site), not in the formatter — every
ATOM record in the output of `xyz_to_pdb` carries an element symbol of at
most 2 characters. -/
theorem C9_element_truncated_by_converter (lines : List String) (r : PdbRec)
    (hr : r ∈ xyz_to_pdb lines) (e : String) (he : elementOf r = some e) :
    e.length ≤ 2 := by
  simp only [xyz_to_pdb] at hr
  rcases List.mem_append.mp hr with h | h
  · exact elementOf_convertAux (lines.length + 1) 0 lines r h e he
  · by_cases h0 : 0 < (convertAux (lines.length + 1) 0 lines).2
    · rw [if_pos h0] at h
      simp only [List.mem_singleton] at h
      subst h
      simp [elementOf] at he
    · rw [if_neg h0] at h
      simp at h

/-- Witness for C9: the element `Fer` in a concrete input is written as
the 2-character symbol `FE`, whose length is within the bound. -/
theorem C9_witness : ("FE" : String).length ≤ 2 :=
  C9_element_truncated_by_converter ["1", "c", "Fer 1.0 2.0 3.0"]
    (PdbRec.atomRec 1 "Fer" "MOL" "A" 1 (mkRat 1 1) (mkRat 2 1) (mkRat 3 1) 1 0 "FE")
    (by decide) "FE" (by decide)

/-- C10: a successfully parsed atom line produces an ATOM record whose
atom-name field is the line's first whitespace token with its original
case, and whose element field is that token uppercased and truncated to
its first 2 characters. -/
theorem C10_element_uppercased (serial k : Nat) (line : String) (rest : List String)
    (h : atomLineSkipped line = false) :
    (readAtoms serial (k + 1) (line :: rest)).1.head?
      = some (PdbRec.atomRec (serial + 1) ((pySplit line).headD "") "MOL" "A" 1
          ((parsePyFloat? ((pySplit line).getD 1 "")).getD 0)
          ((parsePyFloat? ((pySplit line).getD 2 "")).getD 0)
          ((parsePyFloat? ((pySplit line).getD 3 "")).getD 0)
          1 0 (pyTake (pyUpper ((pySplit line).headD "")) 2)) := by
  rw [readAtoms_cons, if_neg (by simp [h])]
  simp [atomRecOf]

/-- Witness for C10: the input element token `fe` is written with atom
name `fe` (original case) and element symbol `FE` (uppercased). -/
theorem C10_witness :
    (readAtoms 0 (0 + 1) ("fe 1.0 2.0 3.0" :: [])).1.head?
      = some (PdbRec.atomRec 1 "fe" "MOL" "A" 1 (mkRat 1 1) (mkRat 2 1) (mkRat 3 1) 1 0 "FE") :=
  (C10_element_uppercased 0 0 "fe 1.0 2.0 3.0" [] (by decide)).trans (by decide)

/-- C1: on a well-formed input of N frames (each header parsing to its
positive atom count, every atom line well formed), `xyz_to_pdb` writes
exactly N MODEL blocks in input order — the i-th being one MODEL header,
the declared number of ATOM records, and one ENDMDL — followed by a single
trailing END record. -/
theorem C1_wellformed_output_structure (frames : List XYZFrame)
    (hne : frames ≠ []) (hwf : ∀ f ∈ frames, WFFrame f) :
    xyz_to_pdb (flattenFrames frames) = expectedBlocks 0 frames ++ [PdbRec.endRec] := by
  simp only [xyz_to_pdb]
  rw [convertAux_frames frames 0 ((flattenFrames frames).length + 1) hwf (Nat.lt_succ_self _)]
  have hpos : 0 < frames.length := by
    cases frames with
    | nil => exact absurd rfl hne
    | cons _ _ => simp
  simp [hpos]

/-- Witness for C1: the spec's own 2-atom example frame followed by a
1-atom frame produces two MODEL blocks and the trailing END. -/
theorem C1_witness :
    xyz_to_pdb (flattenFrames
        [⟨"2", "frame1", ["C 0.0 0.0 0.0", "O 1.5 0.0 0.0"]⟩,
         ⟨"1", "frame2", ["H 1.0 2.0 3.0"]⟩])
      = expectedBlocks 0
          [⟨"2", "frame1", ["C 0.0 0.0 0.0", "O 1.5 0.0 0.0"]⟩,
           ⟨"1", "frame2", ["H 1.0 2.0 3.0"]⟩] ++ [PdbRec.endRec] :=
  C1_wellformed_output_structure _ (by decide) (by decide)

/-- C6: if the input ends while a frame's declared atom lines are being
read, the partial frame is still closed — the ATOM records already
produced are followed by ENDMDL — and, one frame having been opened, a
final END record is written. -/
theorem C6_premature_eof (header comment : String) (atomLines : List String) (n : ℤ)
    (h1 : parsePyInt? (pyStrip header) = some n) (h2 : 0 < n)
    (h3 : atomLines.length < n.toNat) :
    xyz_to_pdb (header :: comment :: atomLines)
      = PdbRec.model 1 :: (readAtoms 0 n.toNat atomLines).1
          ++ [PdbRec.endmdl, PdbRec.endRec] := by
  simp only [xyz_to_pdb, List.length_cons]
  simp only [convertAux, resolveHeader, h1]
  rw [if_neg (by omega)]
  rw [readAtoms_all_consumed n.toNat 0 atomLines (by omega)]
  simp [convertAux]

/-- Witness for C6: a frame declaring 3 atoms with only one atom line
available still gets its ENDMDL and the trailing END. -/
theorem C6_witness :
    xyz_to_pdb ["3", "c", "C 0.0 0.0 0.0"]
      = PdbRec.model 1 :: (readAtoms 0 (Int.toNat 3) ["C 0.0 0.0 0.0"]).1
          ++ [PdbRec.endmdl, PdbRec.endRec] :=
  C6_premature_eof "3" "c" ["C 0.0 0.0 0.0"] 3 (by decide) (by decide) (by decide)

/-- C7: a frame whose header line parses to a non-positive atom count is
skipped without emitting anything: the comment line after it is consumed
and processing continues exactly as if the input had started at the line
after that comment. -/
theorem C7_nonpositive_count (header comment : String) (rest : List String) (n : ℤ)
    (h1 : parsePyInt? (pyStrip header) = some n) (h2 : n ≤ 0) :
    xyz_to_pdb (header :: comment :: rest) = xyz_to_pdb rest := by
  simp only [xyz_to_pdb, List.length_cons]
  simp only [convertAux, resolveHeader, h1]
  rw [if_pos h2]
  simp only [List.tail_cons]
  simp only [convertAux_fuel (rest.length + 1 + 1) (rest.length + 1) 0 rest (by omega) (by omega)]

/-- Witness for C7: a `0` header plus comment produce no MODEL block and
the reader continues with the frame that follows. -/
theorem C7_witness :
    xyz_to_pdb ["0", "ignored comment", "1", "c", "C 1.0 2.0 3.0"]
      = xyz_to_pdb ["1", "c", "C 1.0 2.0 3.0"] :=
  C7_nonpositive_count "0" "ignored comment" ["1", "c", "C 1.0 2.0 3.0"] 0
    (by decide) (by decide)
